import Mathlib

/-!
# Verification of the CIC topological-localization belief filter

Shallow embedding of `src/topological_localization/src/localization/
cic_probabilities.py` (the Bayesian belief-update engine): numpy 1-D
arrays of probabilities become `List ℚ` (exact rational arithmetic in
place of floating point), sensor readings become `List ℕ`, and the
numpy `IndexError` that an out-of-bounds one-hot write raises is
modelled by `Option` (`none` = the update aborts with an exception).
Console error messages, which are the code's only error-signalling
channel, are modelled as explicit error values (`FilterError`).
-/

namespace CIC

/-- `normalize(array)`: divide every entry by the total sum
(`array / sum(array)`). -/
def normalize (array : List ℚ) : List ℚ :=
  array.map (fun x => x / array.sum)

/-- `uniform_distribution(array_len)`: `[1./array_len]*array_len`. -/
def uniform_distribution (array_len : ℕ) : List ℚ :=
  List.replicate array_len (1 / (array_len : ℚ))

/-- `empty_reading()`: the fixed fallback encoding substituted for an
invalid reading. -/
def empty_reading : List ℚ := [1, 0, 1, 0, 0, 1, 0, 0]

/-- `PositionProbability.__init__`: the belief starts uniform over the
18 map nodes. -/
def position_belief_init : List ℚ := uniform_distribution 18

/-- The pre-normalization weight vector of `set_feature_occurency`:
`np.ones(18)` with the entries at the (1-indexed) nodes of `node_occur`
set to `scale`. -/
def occurrence_weights (node_occur : List ℕ) (scale : ℚ) : List ℚ :=
  List.ofFn (fun i : Fin 18 => if i.val + 1 ∈ node_occur then scale else 1)

/-- `SensorProbability.set_feature_occurency(node_occur, scale=5)`:
boosted weight vector, normalized to sum to 1.  The Python default for
`scale` is 5; every call site in the source uses that default. -/
def set_feature_occurency (node_occur : List ℕ) (scale : ℚ) : List ℚ :=
  normalize (occurrence_weights node_occur scale)

/-- Occurrence nodes of the hallway "parallel lines found" row. -/
def occurrence_hallway : List ℕ := [2, 4, 6, 8, 9, 10, 11, 13, 15, 17]

/-- Occurrence nodes of the inner-corner rows (rows 1 and 2 share it). -/
def occurrence_inner : List ℕ := [1, 7, 12, 18]

/-- Occurrence nodes of the outer-corner "one corner found" row. -/
def occurrence_outer_single : List ℕ := [1, 3, 5, 7, 12, 14, 16, 18]

/-- Occurrence nodes of the outer-corner "more than one corner" row. -/
def occurrence_outer_multi : List ℕ := [3, 5, 14, 16]

/-- `set_hallway_probability`: 2 rows over the 18 nodes. -/
def prob_hallway : List (List ℚ) :=
  [uniform_distribution 18,
   set_feature_occurency occurrence_hallway 5]

/-- `set_inner_corners_probability`: 3 rows over the 18 nodes. -/
def prob_inner_corner : List (List ℚ) :=
  [uniform_distribution 18,
   set_feature_occurency occurrence_inner 5,
   set_feature_occurency occurrence_inner 5]

/-- `set_outer_corners_probability`: 3 rows over the 18 nodes. -/
def prob_outer_corner : List (List ℚ) :=
  [uniform_distribution 18,
   set_feature_occurency occurrence_outer_single 5,
   set_feature_occurency occurrence_outer_multi 5]

/-- `self.hallway_features = 2`. -/
def hallway_features : ℕ := 2

/-- `self.inner_features = 3`. -/
def inner_features : ℕ := 3

/-- `self.outer_features = 3`. -/
def outer_features : ℕ := 3

/-- `self.features_order = np.array([2, 3, 3])`. -/
def features_order : List ℕ := [hallway_features, inner_features, outer_features]

/-- `set_static_measurements_probability`: `np.vstack` of the hallway,
inner-corner and outer-corner tables, in that order (8 rows x 18). -/
def measurements_probability : List (List ℚ) :=
  prob_hallway ++ prob_inner_corner ++ prob_outer_corner

/-- The error kinds the code signals on its console channel. -/
inductive FilterError where
  | ShapeError  : FilterError
  | RangeError  : FilterError
deriving DecidableEq

/-- The two validation checks at the head of `process_sensor_reading`:
`features_order.shape != reading.shape` ("Wrong shape of reading
message recieved.") and `not np.all(reading <= features_order)`
("Invalid reading value...").  Either failure makes the code log the
message and substitute `empty_reading()`. -/
def reading_validation_error (reading : List ℕ) : Option FilterError :=
  if reading.length ≠ features_order.length then some FilterError.ShapeError
  else if ¬ ((reading.zip features_order).all fun p => p.1 ≤ p.2) then
    some FilterError.RangeError
  else none

/-- The one-hot block `np.zeros(len)` with position `idx` set to 1. -/
def one_hot_vec (len idx : ℕ) : List ℚ :=
  List.ofFn (fun i : Fin len => if i.val = idx then 1 else 0)

/-- `msg = np.zeros(len); msg[idx] = 1`: the numpy assignment raises
`IndexError` when `idx` is not below `len` (readings are non-negative
integer flags). -/
def one_hot (len idx : ℕ) : Option (List ℚ) :=
  if idx < len then some (one_hot_vec len idx) else none

/-- The encoding part of `process_sensor_reading` after validation
has passed: build the three one-hot blocks of sizes
`features_order = [2, 3, 3]` in order and concatenate them.  A `none`
from `one_hot` (an out-of-bounds numpy write) aborts the whole
encoding, exactly as the raised `IndexError` does.  A reading that is
not a 3-list never reaches this point (validation rejects it). -/
def encode_blocks (reading : List ℕ) : Option (List ℚ) :=
  match reading with
  | [r0, r1, r2] =>
    (one_hot hallway_features r0).bind fun hallway_msg =>
      (one_hot inner_features r1).bind fun inner_msg =>
        (one_hot outer_features r2).bind fun outer_msg =>
          some (hallway_msg ++ inner_msg ++ outer_msg)
  | _ => none

/-- `CIC_Probabilities.process_sensor_reading(reading)`: validate,
then build and concatenate the three one-hot blocks.  A validation
failure is logged and replaced by `empty_reading()`.  `none` models
the `IndexError` raised by an out-of-bounds one-hot write (a reading
value equal to its class's block length passes validation but crashes
there). -/
def process_sensor_reading (reading : List ℕ) : Option (List ℚ) :=
  match reading_validation_error reading with
  | some _ => some empty_reading
  | none => encode_blocks reading

/-- `np.dot(z, M)` for a row vector `z` (length 8) and the stacked
table `M` (8 rows x 18 columns): entry `n` is `Σ_r z[r] * M[r][n]`. -/
def dot_vec_mat (z : List ℚ) (m : List (List ℚ)) : List ℚ :=
  List.ofFn (fun n : Fin 18 =>
    (List.zipWith (fun zr row => zr * row.getD n.val 0) z m).sum)

/-- Elementwise product of two numpy vectors of equal length. -/
def mul_vec (a b : List ℚ) : List ℚ := List.zipWith (· * ·) a b

/-- Elementwise sum of two numpy vectors of equal length. -/
def add_vec (a b : List ℚ) : List ℚ := List.zipWith (· + ·) a b

/-- `CIC_Probabilities.set_belief(new_belief)`: the stored belief is
replaced only when the shapes agree; otherwise the code logs
"Wrong size in belief update" (the `ShapeError` signal) and keeps the
old belief. -/
def set_belief (position_belief new_belief : List ℚ) :
    List ℚ × Option FilterError :=
  if position_belief.length = new_belief.length then (new_belief, none)
  else (position_belief, some FilterError.ShapeError)

/-- `CIC_Probabilities.update_belief(reading)`: encode the reading,
multiply `np.dot(z, measurements_probability)` elementwise into the
belief, normalize, and store via `set_belief`.  Returns the belief
stored after the call; `none` models the encoder's `IndexError`
propagating (the update aborts, the stored belief untouched).  The
code also compares `z`'s length with the table's row count but only
logs on mismatch, which cannot occur for an encoder output. -/
def update_belief (position_belief : List ℚ) (reading : List ℕ) :
    Option (List ℚ) :=
  match process_sensor_reading reading with
  | none => none
  | some z =>
    let prob_x_reading :=
      mul_vec (dot_vec_mat z measurements_probability) position_belief
    some (set_belief position_belief (normalize prob_x_reading)).1

/-- The filter's life: start from the uniform prior and fold
`update_belief` over a stream of readings; `none` when some update
raised. -/
def run_filter (readings : List (List ℕ)) : Option (List ℚ) :=
  readings.foldlM update_belief position_belief_init

/-- The state invariant of the filter: a belief is a vector of 18
strictly positive entries summing to 1. -/
def BeliefInv (b : List ℚ) : Prop :=
  b.length = 18 ∧ (∀ x ∈ b, 0 < x) ∧ b.sum = 1

/-! ### Arithmetic helper lemmas -/

theorem sum_map_div (l : List ℚ) (c : ℚ) :
    (l.map (fun x => x / c)).sum = l.sum / c := by
  induction l with
  | nil => simp
  | cons a t ih => simp [ih, add_div]

theorem sum_map_mul (l : List ℚ) (c : ℚ) :
    (l.map (fun x => c * x)).sum = c * l.sum := by
  induction l with
  | nil => simp
  | cons a t ih => simp [ih, mul_add]

/-! ### `normalize` lemmas -/

theorem normalize_length (v : List ℚ) : (normalize v).length = v.length := by
  simp [normalize]

theorem normalize_sum (v : List ℚ) (h : v.sum ≠ 0) : (normalize v).sum = 1 := by
  simp [normalize, sum_map_div, div_self h]

theorem normalize_pos (v : List ℚ) (hpos : ∀ x ∈ v, 0 < x) (hs : 0 < v.sum) :
    ∀ x ∈ normalize v, 0 < x := by
  intro x hx
  simp only [normalize, List.mem_map] at hx
  obtain ⟨y, hy, rfl⟩ := hx
  exact div_pos (hpos y hy) hs

theorem normalize_getD (v : List ℚ) (k : ℕ) (hk : k < v.length) :
    (normalize v).getD k 0 = v.getD k 0 / v.sum := by
  rw [List.getD_eq_getElem v 0 hk,
    List.getD_eq_getElem _ 0 (by simpa [normalize_length] using hk)]
  simp [normalize]

/-! ### `uniform_distribution` lemmas -/

theorem uniform_length : (uniform_distribution 18).length = 18 := by
  simp [uniform_distribution]

theorem uniform_sum : (uniform_distribution 18).sum = 1 := by
  simp [uniform_distribution, List.sum_replicate]
  norm_num

theorem uniform_pos : ∀ x ∈ uniform_distribution 18, 0 < x := by
  intro x hx
  rw [List.eq_of_mem_replicate (show x ∈ List.replicate 18 ((1 : ℚ) / 18) from hx)]
  norm_num

theorem uniform_getD (n : ℕ) (hn : n < 18) :
    (uniform_distribution 18).getD n 0 = 1 / 18 := by
  rw [List.getD_eq_getElem _ 0 (by simpa [uniform_length] using hn)]
  simp only [uniform_distribution, List.getElem_replicate]
  norm_num

/-! ### `occurrence_weights` / `set_feature_occurency` lemmas -/

theorem occurrence_weights_length (occ : List ℕ) (s : ℚ) :
    (occurrence_weights occ s).length = 18 := by
  simp [occurrence_weights]

theorem occurrence_weights_pos (occ : List ℕ) (s : ℚ) (hs : 0 < s) :
    ∀ x ∈ occurrence_weights occ s, 0 < x := by
  intro x hx
  simp only [occurrence_weights, List.mem_ofFn] at hx
  obtain ⟨i, rfl⟩ := hx
  dsimp only
  split
  · exact hs
  · norm_num

theorem occurrence_weights_sum_pos (occ : List ℕ) (s : ℚ) (hs : 0 < s) :
    0 < (occurrence_weights occ s).sum := by
  refine List.sum_pos _ (occurrence_weights_pos occ s hs) ?_
  intro h
  have := occurrence_weights_length occ s
  rw [h] at this
  simp at this

theorem occurrence_weights_getD (occ : List ℕ) (s : ℚ) (k : ℕ) (hk : k < 18) :
    (occurrence_weights occ s).getD k 0 = if k + 1 ∈ occ then s else 1 := by
  rw [List.getD_eq_getElem _ 0 (by simpa [occurrence_weights_length] using hk)]
  simp only [occurrence_weights, List.getElem_ofFn]

theorem set_feature_occurency_length (occ : List ℕ) (s : ℚ) :
    (set_feature_occurency occ s).length = 18 := by
  simp [set_feature_occurency, normalize_length, occurrence_weights_length]

theorem set_feature_occurency_sum (occ : List ℕ) (s : ℚ) (hs : 0 < s) :
    (set_feature_occurency occ s).sum = 1 :=
  normalize_sum _ (ne_of_gt (occurrence_weights_sum_pos occ s hs))

theorem set_feature_occurency_pos (occ : List ℕ) (s : ℚ) (hs : 0 < s) :
    ∀ x ∈ set_feature_occurency occ s, 0 < x :=
  normalize_pos _ (occurrence_weights_pos occ s hs)
    (occurrence_weights_sum_pos occ s hs)

theorem set_feature_occurency_getD (occ : List ℕ) (s : ℚ) (k : ℕ) (hk : k < 18) :
    (set_feature_occurency occ s).getD k 0 =
      (if k + 1 ∈ occ then s else 1) / (occurrence_weights occ s).sum := by
  rw [set_feature_occurency,
    normalize_getD _ k (by simpa [occurrence_weights_length] using hk),
    occurrence_weights_getD occ s k hk]

/-! ### `add_vec` / `mul_vec` lemmas -/

theorem add_vec_length (a b : List ℚ) :
    (add_vec a b).length = min a.length b.length := by
  simp [add_vec]

theorem mul_vec_length (a b : List ℚ) :
    (mul_vec a b).length = min a.length b.length := by
  simp [mul_vec]

theorem add_vec_getD (a b : List ℚ) (n : ℕ) (ha : n < a.length)
    (hb : n < b.length) :
    (add_vec a b).getD n 0 = a.getD n 0 + b.getD n 0 := by
  have hab : n < (add_vec a b).length := by
    rw [add_vec_length]; exact lt_min ha hb
  rw [List.getD_eq_getElem a 0 ha, List.getD_eq_getElem b 0 hb,
    List.getD_eq_getElem _ 0 hab]
  simp [add_vec]

theorem mul_vec_getD (a b : List ℚ) (n : ℕ) (ha : n < a.length)
    (hb : n < b.length) :
    (mul_vec a b).getD n 0 = a.getD n 0 * b.getD n 0 := by
  have hab : n < (mul_vec a b).length := by
    rw [mul_vec_length]; exact lt_min ha hb
  rw [List.getD_eq_getElem a 0 ha, List.getD_eq_getElem b 0 hb,
    List.getD_eq_getElem _ 0 hab]
  simp [mul_vec]

theorem add_vec_pos {a b : List ℚ} (ha : ∀ x ∈ a, 0 < x)
    (hb : ∀ x ∈ b, 0 < x) : ∀ x ∈ add_vec a b, 0 < x := by
  induction a generalizing b with
  | nil => simp [add_vec]
  | cons x t ih =>
    cases b with
    | nil => simp [add_vec]
    | cons y u =>
      intro v hv
      simp only [add_vec, List.zipWith_cons_cons, List.mem_cons] at hv
      rcases hv with rfl | hv
      · exact add_pos (ha x (by simp)) (hb y (by simp))
      · exact ih (fun w hw => ha w (by simp [hw]))
          (fun w hw => hb w (by simp [hw])) v hv

theorem mul_vec_pos {a b : List ℚ} (ha : ∀ x ∈ a, 0 < x)
    (hb : ∀ x ∈ b, 0 < x) : ∀ x ∈ mul_vec a b, 0 < x := by
  induction a generalizing b with
  | nil => simp [mul_vec]
  | cons x t ih =>
    cases b with
    | nil => simp [mul_vec]
    | cons y u =>
      intro v hv
      simp only [mul_vec, List.zipWith_cons_cons, List.mem_cons] at hv
      rcases hv with rfl | hv
      · exact mul_pos (ha x (by simp)) (hb y (by simp))
      · exact ih (fun w hw => ha w (by simp [hw]))
          (fun w hw => hb w (by simp [hw])) v hv

theorem add_vec_replicate (n : ℕ) (a b : ℚ) :
    add_vec (List.replicate n a) (List.replicate n b) =
      List.replicate n (a + b) := by
  induction n with
  | zero => rfl
  | succ n ih =>
    simp only [List.replicate_succ, add_vec, List.zipWith_cons_cons] at ih ⊢
    rw [ih]

theorem mul_vec_replicate (c : ℚ) (b : List ℚ) :
    mul_vec (List.replicate b.length c) b = b.map (fun x => c * x) := by
  induction b with
  | nil => rfl
  | cons y u ih =>
    simp only [List.length_cons, List.replicate_succ, mul_vec,
      List.zipWith_cons_cons, List.map_cons] at ih ⊢
    rw [ih]

/-! ### `dot_vec_mat` lemmas -/

theorem dot_vec_mat_length (z : List ℚ) (m : List (List ℚ)) :
    (dot_vec_mat z m).length = 18 := by
  simp [dot_vec_mat]

theorem dot_vec_mat_append (z1 z2 : List ℚ) (M1 M2 : List (List ℚ))
    (h : z1.length = M1.length) :
    dot_vec_mat (z1 ++ z2) (M1 ++ M2) =
      add_vec (dot_vec_mat z1 M1) (dot_vec_mat z2 M2) := by
  refine List.ext_getElem ?_ ?_
  · simp [dot_vec_mat, add_vec]
  · intro n h1 h2
    simp only [dot_vec_mat, add_vec, List.getElem_zipWith, List.getElem_ofFn]
    rw [List.zipWith_append _ _ _ _ _ h, List.sum_append]

theorem one_hot_vec_succ (l idx : ℕ) :
    one_hot_vec (l + 1) idx =
      (if 0 = idx then (1 : ℚ) else 0) ::
        List.ofFn (fun i : Fin l => if i.val + 1 = idx then 1 else 0) := by
  rw [one_hot_vec, List.ofFn_succ]
  simp

theorem one_hot_vec_tail_zero (l : ℕ) :
    List.ofFn (fun i : Fin l => if i.val + 1 = 0 then (1 : ℚ) else 0) =
      List.replicate l 0 := by
  rw [show (fun i : Fin l => if i.val + 1 = 0 then (1 : ℚ) else 0) =
      fun _ => (0 : ℚ) from funext fun i => by simp]
  simp

theorem one_hot_vec_shift (l idx : ℕ) :
    List.ofFn (fun i : Fin l => if i.val + 1 = idx + 1 then (1 : ℚ) else 0) =
      one_hot_vec l idx := by
  rw [one_hot_vec]
  exact congrArg _ (funext fun i => by simp)

theorem one_hot_vec_length (l idx : ℕ) : (one_hot_vec l idx).length = l := by
  simp [one_hot_vec]

theorem zipWith_zero_sum (M : List (List ℚ)) (n l : ℕ) :
    (List.zipWith (fun zr row => zr * row.getD n 0)
      (List.replicate l (0 : ℚ)) M).sum = 0 := by
  induction M generalizing l with
  | nil => simp
  | cons row Ms ih =>
    cases l with
    | zero => simp
    | succ l =>
      simp only [List.replicate_succ, List.zipWith_cons_cons, List.sum_cons,
        zero_mul, zero_add]
      exact ih l

theorem dot_one_hot_sum (M : List (List ℚ)) (idx n : ℕ) (h : idx < M.length) :
    (List.zipWith (fun zr row => zr * row.getD n 0)
        (one_hot_vec M.length idx) M).sum
      = (M.getD idx []).getD n 0 := by
  induction M generalizing idx with
  | nil => simp at h
  | cons row Ms ih =>
    cases idx with
    | zero =>
      rw [List.length_cons, one_hot_vec_succ]
      simp only [List.zipWith_cons_cons, List.sum_cons, if_pos rfl,
        one_hot_vec_tail_zero, zipWith_zero_sum]
      simp
    | succ idx =>
      have h' : idx < Ms.length := by simpa using h
      rw [List.length_cons, one_hot_vec_succ]
      simp only [List.zipWith_cons_cons, List.sum_cons, one_hot_vec_shift,
        ih idx h']
      simp

theorem dot_vec_mat_one_hot (M : List (List ℚ)) (idx : ℕ) (h : idx < M.length)
    (hrow : (M.getD idx []).length = 18) :
    dot_vec_mat (one_hot_vec M.length idx) M = M.getD idx [] := by
  refine List.ext_getElem ?_ ?_
  · rw [dot_vec_mat_length, hrow]
  · intro n h1 h2
    simp only [dot_vec_mat, List.getElem_ofFn]
    rw [dot_one_hot_sum M idx n h, List.getD_eq_getElem _ 0 h2]

/-! ### Rows of the stacked likelihood table -/

theorem prob_hallway_row_length (r : ℕ) (h : r < 2) :
    (prob_hallway.getD r []).length = 18 := by
  interval_cases r
  · exact uniform_length
  · exact set_feature_occurency_length _ _

theorem prob_inner_row_length (r : ℕ) (h : r < 3) :
    (prob_inner_corner.getD r []).length = 18 := by
  interval_cases r
  · exact uniform_length
  · exact set_feature_occurency_length _ _
  · exact set_feature_occurency_length _ _

theorem prob_outer_row_length (r : ℕ) (h : r < 3) :
    (prob_outer_corner.getD r []).length = 18 := by
  interval_cases r
  · exact uniform_length
  · exact set_feature_occurency_length _ _
  · exact set_feature_occurency_length _ _

theorem prob_hallway_row_pos (r : ℕ) (h : r < 2) :
    ∀ x ∈ prob_hallway.getD r [], 0 < x := by
  interval_cases r
  · exact uniform_pos
  · exact set_feature_occurency_pos _ _ (by norm_num)

theorem prob_inner_row_pos (r : ℕ) (h : r < 3) :
    ∀ x ∈ prob_inner_corner.getD r [], 0 < x := by
  interval_cases r
  · exact uniform_pos
  · exact set_feature_occurency_pos _ _ (by norm_num)
  · exact set_feature_occurency_pos _ _ (by norm_num)

theorem prob_outer_row_pos (r : ℕ) (h : r < 3) :
    ∀ x ∈ prob_outer_corner.getD r [], 0 < x := by
  interval_cases r
  · exact uniform_pos
  · exact set_feature_occurency_pos _ _ (by norm_num)
  · exact set_feature_occurency_pos _ _ (by norm_num)

/-- The single dot product of a valid one-hot encoded reading against
the stacked table selects one row per feature class and adds the three
selected rows elementwise. -/
theorem dot_encoded (r0 r1 r2 : ℕ) (h0 : r0 < 2) (h1 : r1 < 3) (h2 : r2 < 3) :
    dot_vec_mat (one_hot_vec 2 r0 ++ one_hot_vec 3 r1 ++ one_hot_vec 3 r2)
        measurements_probability
      = add_vec (add_vec (prob_hallway.getD r0 []) (prob_inner_corner.getD r1 []))
          (prob_outer_corner.getD r2 []) := by
  rw [show measurements_probability =
      prob_hallway ++ prob_inner_corner ++ prob_outer_corner from rfl]
  rw [dot_vec_mat_append _ _ _ _
    (by simp [one_hot_vec_length, prob_hallway, prob_inner_corner])]
  rw [dot_vec_mat_append _ _ _ _ (by simp [one_hot_vec_length, prob_hallway])]
  rw [show one_hot_vec 2 r0 = one_hot_vec prob_hallway.length r0 from rfl,
    dot_vec_mat_one_hot prob_hallway r0 h0 (prob_hallway_row_length r0 h0)]
  rw [show one_hot_vec 3 r1 = one_hot_vec prob_inner_corner.length r1 from rfl,
    dot_vec_mat_one_hot prob_inner_corner r1 h1 (prob_inner_row_length r1 h1)]
  rw [show one_hot_vec 3 r2 = one_hot_vec prob_outer_corner.length r2 from rfl,
    dot_vec_mat_one_hot prob_outer_corner r2 h2 (prob_outer_row_length r2 h2)]

/-- Every entry of the multiplier produced by a valid one-hot encoding
is strictly positive. -/
theorem dot_encoded_pos (r0 r1 r2 : ℕ) (h0 : r0 < 2) (h1 : r1 < 3) (h2 : r2 < 3) :
    ∀ x ∈ dot_vec_mat (one_hot_vec 2 r0 ++ one_hot_vec 3 r1 ++ one_hot_vec 3 r2)
        measurements_probability, 0 < x := by
  rw [dot_encoded r0 r1 r2 h0 h1 h2]
  exact add_vec_pos
    (add_vec_pos (prob_hallway_row_pos r0 h0) (prob_inner_row_pos r1 h1))
    (prob_outer_row_pos r2 h2)

/-! ### `process_sensor_reading` characterization -/

/-- A reading that passes validation with all components strictly below
their block lengths encodes to the concatenation of the three one-hot
blocks. -/
theorem reading_validation_ok (r0 r1 r2 : ℕ)
    (h0 : r0 ≤ 2) (h1 : r1 ≤ 3) (h2 : r2 ≤ 3) :
    reading_validation_error [r0, r1, r2] = none := by
  have e0 : r0 ≤ hallway_features := h0
  have e1 : r1 ≤ inner_features := h1
  have e2 : r2 ≤ outer_features := h2
  simp [reading_validation_error, features_order, e0, e1, e2]

theorem process_sensor_reading_valid (r0 r1 r2 : ℕ)
    (h0 : r0 < 2) (h1 : r1 < 3) (h2 : r2 < 3) :
    process_sensor_reading [r0, r1, r2] =
      some (one_hot_vec 2 r0 ++ one_hot_vec 3 r1 ++ one_hot_vec 3 r2) := by
  rw [process_sensor_reading,
    reading_validation_ok r0 r1 r2 (by omega) (by omega) (by omega)]
  have g0 : one_hot hallway_features r0 = some (one_hot_vec 2 r0) := if_pos h0
  have g1 : one_hot inner_features r1 = some (one_hot_vec 3 r1) := if_pos h1
  have g2 : one_hot outer_features r2 = some (one_hot_vec 3 r2) := if_pos h2
  rw [encode_blocks, g0, g1, g2]
  rfl

/-- A reading rejected by validation encodes to the fixed fallback
`empty_reading`. -/
theorem process_sensor_reading_invalid (r : List ℕ) (e : FilterError)
    (h : reading_validation_error r = some e) :
    process_sensor_reading r = some empty_reading := by
  rw [process_sensor_reading, h]

theorem encode_blocks_encodes (r : List ℕ) (z : List ℚ)
    (h : encode_blocks r = some z) :
    ∃ r0 r1 r2 : ℕ, r0 < 2 ∧ r1 < 3 ∧ r2 < 3 ∧
      z = one_hot_vec 2 r0 ++ one_hot_vec 3 r1 ++ one_hot_vec 3 r2 := by
  match r, h with
  | [], h => exact absurd h (by simp [encode_blocks])
  | [_], h => exact absurd h (by simp [encode_blocks])
  | [_, _], h => exact absurd h (by simp [encode_blocks])
  | _ :: _ :: _ :: _ :: _, h => exact absurd h (by simp [encode_blocks])
  | [a, b, c], h =>
    rw [encode_blocks] at h
    simp only [one_hot, hallway_features, inner_features, outer_features] at h
    split_ifs at h with ha hb hc <;>
      simp only [Option.some_bind, Option.none_bind] at h
    · exact ⟨a, b, c, ha, hb, hc, ((Option.some.injEq _ _).mp h).symm⟩
    all_goals exact Option.noConfusion h

/-- Every successful encoding is a concatenation of three one-hot
blocks with in-range indices (the fallback `empty_reading` is the
all-zeros such encoding). -/
theorem process_sensor_reading_encodes (r : List ℕ) (z : List ℚ)
    (h : process_sensor_reading r = some z) :
    ∃ r0 r1 r2 : ℕ, r0 < 2 ∧ r1 < 3 ∧ r2 < 3 ∧
      z = one_hot_vec 2 r0 ++ one_hot_vec 3 r1 ++ one_hot_vec 3 r2 := by
  rw [process_sensor_reading] at h
  cases hv : reading_validation_error r with
  | some e =>
    rw [hv] at h
    refine ⟨0, 0, 0, by norm_num, by norm_num, by norm_num, ?_⟩
    cases h
    rfl
  | none =>
    rw [hv] at h
    exact encode_blocks_encodes r z h

/-! ### `update_belief` preserves the belief invariant -/

theorem update_belief_some (b : List ℚ) (r : List ℕ) (z : List ℚ)
    (h : process_sensor_reading r = some z) :
    update_belief b r =
      some (set_belief b
        (normalize (mul_vec (dot_vec_mat z measurements_probability) b))).1 := by
  rw [update_belief, h]

theorem update_belief_preserves (b : List ℚ) (r : List ℕ) (b' : List ℚ)
    (hInv : BeliefInv b) (h : update_belief b r = some b') : BeliefInv b' := by
  obtain ⟨hlen, hpos, hsum⟩ := hInv
  cases hz : process_sensor_reading r with
  | none =>
    rw [update_belief, hz] at h
    exact absurd h (by simp)
  | some z =>
    rw [update_belief_some b r z hz] at h
    obtain ⟨r0, r1, r2, h0, h1, h2, rfl⟩ :=
      process_sensor_reading_encodes r z hz
    set m := dot_vec_mat (one_hot_vec 2 r0 ++ one_hot_vec 3 r1 ++ one_hot_vec 3 r2)
      measurements_probability with hm
    have hmlen : m.length = 18 := dot_vec_mat_length _ _
    have hmpos : ∀ x ∈ m, 0 < x := dot_encoded_pos r0 r1 r2 h0 h1 h2
    have hplen : (mul_vec m b).length = 18 := by
      rw [mul_vec_length, hmlen, hlen]
      exact min_self 18
    have hppos : ∀ x ∈ mul_vec m b, 0 < x := mul_vec_pos hmpos hpos
    have hpnil : mul_vec m b ≠ [] := by
      intro hnil
      rw [hnil] at hplen
      simp at hplen
    have hpsum : 0 < (mul_vec m b).sum := List.sum_pos _ hppos hpnil
    have hnlen : (normalize (mul_vec m b)).length = 18 := by
      rw [normalize_length, hplen]
    have hset : set_belief b (normalize (mul_vec m b)) =
        (normalize (mul_vec m b), none) := by
      rw [set_belief, if_pos (by rw [hlen, hnlen])]
    rw [hset] at h
    cases h
    exact ⟨hnlen, normalize_pos _ hppos hpsum,
      normalize_sum _ (ne_of_gt hpsum)⟩

theorem run_filter_preserves (rs : List (List ℕ)) :
    ∀ b0 : List ℚ, BeliefInv b0 → ∀ b : List ℚ,
      rs.foldlM update_belief b0 = some b → BeliefInv b := by
  induction rs with
  | nil =>
    intro b0 h0 b hb
    cases hb
    exact h0
  | cons r rest ih =>
    intro b0 h0 b hb
    rw [List.foldlM_cons] at hb
    cases hu : update_belief b0 r with
    | none => rw [hu] at hb; exact absurd hb (by simp)
    | some b1 =>
      rw [hu] at hb
      exact ih b1 (update_belief_preserves b0 r b1 h0 hu) b hb

theorem position_belief_init_inv : BeliefInv position_belief_init :=
  ⟨uniform_length, uniform_pos, uniform_sum⟩

/-! ### The all-uniform multiplier -/

/-- The fallback encoding selects row 0 of every class, so its dot
product against the stacked table is the constant vector 3/18 = 1/6. -/
theorem dot_empty_reading :
    dot_vec_mat empty_reading measurements_probability =
      List.replicate 18 (1 / 6) := by
  rw [show empty_reading =
      one_hot_vec 2 0 ++ one_hot_vec 3 0 ++ one_hot_vec 3 0 from rfl]
  rw [dot_encoded 0 0 0 (by norm_num) (by norm_num) (by norm_num)]
  rw [show prob_hallway.getD 0 [] = List.replicate 18 ((1 : ℚ) / 18) from rfl]
  rw [show prob_inner_corner.getD 0 [] = List.replicate 18 ((1 : ℚ) / 18) from rfl]
  rw [show prob_outer_corner.getD 0 [] = List.replicate 18 ((1 : ℚ) / 18) from rfl]
  rw [add_vec_replicate, add_vec_replicate]
  congr 1
  norm_num

/-- An update whose encoding is the all-uniform fallback multiplies the
belief by the constant 1/6 and renormalizes, which reproduces the
belief exactly (in exact arithmetic) whenever it sums to 1. -/
theorem update_belief_uniform_multiplier (b : List ℚ) (r : List ℕ)
    (hlen : b.length = 18) (hsum : b.sum = 1)
    (hz : process_sensor_reading r = some empty_reading) :
    update_belief b r = some b := by
  rw [update_belief_some b r empty_reading hz, dot_empty_reading]
  have h1 : mul_vec (List.replicate 18 (1 / 6 : ℚ)) b =
      b.map (fun x => (1 / 6) * x) := by
    rw [← hlen]
    exact mul_vec_replicate _ b
  rw [h1]
  have h2 : (b.map (fun x => (1 / 6 : ℚ) * x)).sum = 1 / 6 := by
    rw [sum_map_mul, hsum, mul_one]
  have h3 : normalize (b.map (fun x => (1 / 6 : ℚ) * x)) = b := by
    rw [normalize, h2, List.map_map]
    have hfun : ((fun x => x / (1 / 6 : ℚ)) ∘ fun x => (1 / 6 : ℚ) * x) = id := by
      funext x
      simp only [Function.comp_apply, id_eq]
      field_simp
    rw [hfun, List.map_id]
  rw [h3, set_belief, if_pos rfl]

/-! ### Concrete weight sums of the boosted rows -/

theorem weights_hallway_sum : (occurrence_weights occurrence_hallway 5).sum = 58 := by
  rw [occurrence_weights, List.sum_ofFn]
  simp [Fin.sum_univ_succ, occurrence_hallway]
  norm_num

theorem weights_inner_sum : (occurrence_weights occurrence_inner 5).sum = 34 := by
  rw [occurrence_weights, List.sum_ofFn]
  simp [Fin.sum_univ_succ, occurrence_inner]
  norm_num

/-! ## Claim theorems -/

/-- C1: every belief vector the filter holds — the uniform initial
belief built at construction and the stored belief after every
successful sequence of `update_belief` calls — sums to exactly 1
(exact-arithmetic counterpart of the spec's 1e-9 floating
tolerance). -/
theorem claim1_belief_always_sums_to_one (rs : List (List ℕ)) (b : List ℚ)
    (h : run_filter rs = some b) :
    position_belief_init.sum = 1 ∧ b.sum = 1 :=
  ⟨uniform_sum,
   (run_filter_preserves rs position_belief_init position_belief_init_inv
     b h).2.2⟩

theorem claim1_belief_always_sums_to_one_witness :
    position_belief_init.sum = 1 ∧
      ((run_filter [[1, 0, 0]]).getD []).sum = 1 :=
  claim1_belief_always_sums_to_one [[1, 0, 0]]
    ((run_filter [[1, 0, 0]]).getD []) rfl

/-- C3: a reading that fails validation (wrong shape, or a component
above its class bound) never crashes the update: the code reports the
validation error on its logging channel, substitutes the uniform
fallback encoding `empty_reading`, and the stored belief comes out of
`update_belief` unchanged. -/
theorem claim3_invalid_reading_harmless (r : List ℕ) (e : FilterError)
    (b : List ℚ) (hb : b.length = 18) (hsum : b.sum = 1)
    (herr : reading_validation_error r = some e) :
    process_sensor_reading r = some empty_reading ∧
      update_belief b r = some b :=
  ⟨process_sensor_reading_invalid r e herr,
   update_belief_uniform_multiplier b r hb hsum
     (process_sensor_reading_invalid r e herr)⟩

theorem claim3_invalid_reading_harmless_witness :
    process_sensor_reading [0, 0] = some empty_reading ∧
      update_belief (uniform_distribution 18) [0, 0] =
        some (uniform_distribution 18) :=
  claim3_invalid_reading_harmless [0, 0] FilterError.ShapeError
    (uniform_distribution 18) uniform_length uniform_sum rfl

/-- C4 (code bug): the reading [2, 0, 0] — hallway flag equal to the
class cardinality 2 whose legal one-hot indices are 0..1 — passes the
code's validation (`reading <= features_order`, componentwise), so no
RangeError is signalled; the encoder then raises IndexError on the
out-of-bounds one-hot write instead of rejecting the reading. -/
theorem claim4_boundary_reading_crashes :
    reading_validation_error [2, 0, 0] = none ∧
      process_sensor_reading [2, 0, 0] = none :=
  ⟨rfl, rfl⟩

/-- C5: the all-zeros reading, with class cardinalities [2, 3, 3],
encodes to a 1 at the first position of each class's block —
`[1,0, 1,0,0, 1,0,0]`. -/
theorem claim5_encode_all_zeros :
    features_order = [2, 3, 3] ∧
      process_sensor_reading [0, 0, 0] =
        some [1, 0, 1, 0, 0, 1, 0, 0] :=
  ⟨rfl, rfl⟩

/-- C6: a reading whose encoding selects the uniform row 0 of every
feature class leaves the belief unchanged: the likelihood multiplier
is the constant 1/6, which renormalization cancels exactly. -/
theorem claim6_uniform_rows_fix_belief (b : List ℚ) (r : List ℕ)
    (hb : b.length = 18) (hsum : b.sum = 1)
    (hz : process_sensor_reading r =
      some (one_hot_vec 2 0 ++ one_hot_vec 3 0 ++ one_hot_vec 3 0)) :
    update_belief b r = some b :=
  update_belief_uniform_multiplier b r hb hsum (hz.trans rfl)

theorem claim6_uniform_rows_fix_belief_witness :
    update_belief (uniform_distribution 18) [0, 0, 0] =
      some (uniform_distribution 18) :=
  claim6_uniform_rows_fix_belief (uniform_distribution 18) [0, 0, 0]
    uniform_length uniform_sum rfl

/-- C8: for every occurrence-node set drawn from 1..18 and every
positive boost scale (the source's default is 5),
`set_feature_occurency` returns a valid probability distribution over
the 18 nodes in which a non-occurrence node weighs 1/Σ(weights) and an
occurrence node weighs scale/Σ(weights), Σ(weights) being the sum of
the pre-normalization weight vector. -/
theorem claim8_feature_occurrence_pdf (occ : List ℕ) (scale : ℚ)
    (_hocc : ∀ n ∈ occ, 1 ≤ n ∧ n ≤ 18) (hs : 0 < scale) :
    (set_feature_occurency occ scale).sum = 1 ∧
    (∀ x ∈ set_feature_occurency occ scale, 0 < x) ∧
    (∀ k : ℕ, k < 18 →
      (set_feature_occurency occ scale).getD k 0 =
        (if k + 1 ∈ occ then scale else 1) /
          (occurrence_weights occ scale).sum) :=
  ⟨set_feature_occurency_sum occ scale hs,
   set_feature_occurency_pos occ scale hs,
   fun k hk => set_feature_occurency_getD occ scale k hk⟩

theorem claim8_feature_occurrence_pdf_witness :
    (set_feature_occurency occurrence_inner 5).sum = 1 ∧
    (∀ x ∈ set_feature_occurency occurrence_inner 5, 0 < x) ∧
    (∀ k : ℕ, k < 18 →
      (set_feature_occurency occurrence_inner 5).getD k 0 =
        (if k + 1 ∈ occurrence_inner then (5 : ℚ) else 1) /
          (occurrence_weights occurrence_inner 5).sum) :=
  claim8_feature_occurrence_pdf occurrence_inner 5 (by decide) (by norm_num)

/-- C9: `set_belief` replaces the stored belief exactly when the
proposed vector has the stored belief's 18 entries; any other length
trips the shape guard, the error is signalled, and the previous
belief is returned untouched. -/
theorem claim9_set_belief_shape_guard (old new_b : List ℚ)
    (hold : old.length = 18) :
    (new_b.length = 18 → set_belief old new_b = (new_b, none)) ∧
    (new_b.length ≠ 18 →
      set_belief old new_b = (old, some FilterError.ShapeError)) := by
  constructor
  · intro h
    rw [set_belief, if_pos (hold.trans h.symm)]
  · intro h
    rw [set_belief, if_neg (by rw [hold]; exact fun hh => h hh.symm)]

theorem claim9_set_belief_shape_guard_witness :
    ((uniform_distribution 17).length = 18 →
      set_belief (uniform_distribution 18) (uniform_distribution 17) =
        (uniform_distribution 17, none)) ∧
    ((uniform_distribution 17).length ≠ 18 →
      set_belief (uniform_distribution 18) (uniform_distribution 17) =
        (uniform_distribution 18, some FilterError.ShapeError)) :=
  claim9_set_belief_shape_guard (uniform_distribution 18)
    (uniform_distribution 17) uniform_length

/-- C10: every entry of the stacked likelihood table is strictly
positive (each row is the uniform 1/18 distribution or a normalized
boosted-ones vector), so for every all-positive belief and every
encoding the code produces, the pre-normalization posterior has a
strictly positive sum: the division inside `normalize` is
well-defined and the zero-sum degenerate case is unreachable. -/
theorem claim10_table_positive_no_degenerate :
    (∀ row ∈ measurements_probability, ∀ x ∈ row, 0 < x) ∧
    (∀ b : List ℚ, b.length = 18 → (∀ x ∈ b, 0 < x) →
      ∀ (r : List ℕ) (z : List ℚ), process_sensor_reading r = some z →
        0 < (mul_vec (dot_vec_mat z measurements_probability) b).sum) := by
  constructor
  · intro row hrow
    simp only [measurements_probability, prob_hallway, prob_inner_corner,
      prob_outer_corner, List.cons_append, List.nil_append, List.mem_cons,
      List.not_mem_nil, or_false] at hrow
    rcases hrow with rfl | rfl | rfl | rfl | rfl | rfl | rfl | rfl
    · exact uniform_pos
    · exact set_feature_occurency_pos _ _ (by norm_num)
    · exact uniform_pos
    · exact set_feature_occurency_pos _ _ (by norm_num)
    · exact set_feature_occurency_pos _ _ (by norm_num)
    · exact uniform_pos
    · exact set_feature_occurency_pos _ _ (by norm_num)
    · exact set_feature_occurency_pos _ _ (by norm_num)
  · intro b hblen hbpos r z hz
    obtain ⟨r0, r1, r2, h0, h1, h2, rfl⟩ :=
      process_sensor_reading_encodes r z hz
    have hmpos := dot_encoded_pos r0 r1 r2 h0 h1 h2
    refine List.sum_pos _ (mul_vec_pos hmpos hbpos) ?_
    intro hnil
    have hlen : (mul_vec (dot_vec_mat
        (one_hot_vec 2 r0 ++ one_hot_vec 3 r1 ++ one_hot_vec 3 r2)
        measurements_probability) b).length = 18 := by
      rw [mul_vec_length, dot_vec_mat_length, hblen]
      exact min_self 18
    rw [hnil] at hlen
    simp at hlen

theorem claim10_table_positive_no_degenerate_witness :
    0 < (mul_vec (dot_vec_mat
        (one_hot_vec 2 0 ++ one_hot_vec 3 0 ++ one_hot_vec 3 0)
        measurements_probability) (uniform_distribution 18)).sum :=
  claim10_table_positive_no_degenerate.2 (uniform_distribution 18)
    uniform_length uniform_pos [0, 0, 0] _
    (process_sensor_reading_valid 0 0 0 (by norm_num) (by norm_num)
      (by norm_num))

/-! ### Row entry values used by the C2/C7 analysis -/

theorem hallway_row1_entry0 : (prob_hallway.getD 1 []).getD 0 0 = 1 / 58 := by
  rw [show prob_hallway.getD 1 [] =
      set_feature_occurency occurrence_hallway 5 from rfl,
    set_feature_occurency_getD _ _ 0 (by norm_num), weights_hallway_sum]
  norm_num [occurrence_hallway]

theorem hallway_row1_entry1 : (prob_hallway.getD 1 []).getD 1 0 = 5 / 58 := by
  rw [show prob_hallway.getD 1 [] =
      set_feature_occurency occurrence_hallway 5 from rfl,
    set_feature_occurency_getD _ _ 1 (by norm_num), weights_hallway_sum]
  norm_num [occurrence_hallway]

theorem inner_row1_entry0 : (prob_inner_corner.getD 1 []).getD 0 0 = 5 / 34 := by
  rw [show prob_inner_corner.getD 1 [] =
      set_feature_occurency occurrence_inner 5 from rfl,
    set_feature_occurency_getD _ _ 0 (by norm_num), weights_inner_sum]
  norm_num [occurrence_inner]

theorem inner_row1_entry1 : (prob_inner_corner.getD 1 []).getD 1 0 = 1 / 34 := by
  rw [show prob_inner_corner.getD 1 [] =
      set_feature_occurency occurrence_inner 5 from rfl,
    set_feature_occurency_getD _ _ 1 (by norm_num), weights_inner_sum]
  norm_num [occurrence_inner]

theorem outer_row0_entry (n : ℕ) (hn : n < 18) :
    (prob_outer_corner.getD 0 []).getD n 0 = 1 / 18 := by
  rw [show prob_outer_corner.getD 0 [] = uniform_distribution 18 from rfl,
    uniform_getD n hn]

/-- C2 (amended): for a valid one-hot encoded reading, the single dot
product against the stacked table equals the elementwise SUM of the
three selected per-class likelihood rows — a mixture combination — so
the posterior multiplier is that sum times the belief, not the
elementwise product of the three rows the naive-Bayes reading of the
algorithm would give. -/
theorem claim2_amended_dot_adds_rows (r0 r1 r2 : ℕ)
    (h0 : r0 < 2) (h1 : r1 < 3) (h2 : r2 < 3) (b : List ℚ) :
    mul_vec (dot_vec_mat
        (one_hot_vec 2 r0 ++ one_hot_vec 3 r1 ++ one_hot_vec 3 r2)
        measurements_probability) b
      = mul_vec (add_vec (add_vec (prob_hallway.getD r0 [])
          (prob_inner_corner.getD r1 [])) (prob_outer_corner.getD r2 [])) b := by
  rw [dot_encoded r0 r1 r2 h0 h1 h2]

theorem claim2_amended_dot_adds_rows_witness :
    mul_vec (dot_vec_mat
        (one_hot_vec 2 1 ++ one_hot_vec 3 1 ++ one_hot_vec 3 2)
        measurements_probability) (uniform_distribution 18)
      = mul_vec (add_vec (add_vec (prob_hallway.getD 1 [])
          (prob_inner_corner.getD 1 [])) (prob_outer_corner.getD 2 []))
          (uniform_distribution 18) :=
  claim2_amended_dot_adds_rows 1 1 2 (by norm_num) (by norm_num) (by norm_num)
    (uniform_distribution 18)

/-! Pre-normalization posterior of the valid reading [1, 1, 0] under
the uniform belief: entry values, length and total mass. -/

theorem mult110_entry (n : ℕ) (hn : n < 18) :
    (dot_vec_mat (one_hot_vec 2 1 ++ one_hot_vec 3 1 ++ one_hot_vec 3 0)
      measurements_probability).getD n 0
    = (prob_hallway.getD 1 []).getD n 0 + (prob_inner_corner.getD 1 []).getD n 0
        + (prob_outer_corner.getD 0 []).getD n 0 := by
  have len_h : (prob_hallway.getD 1 []).length = 18 :=
    prob_hallway_row_length 1 (by norm_num)
  have len_i : (prob_inner_corner.getD 1 []).length = 18 :=
    prob_inner_row_length 1 (by norm_num)
  have len_o : (prob_outer_corner.getD 0 []).length = 18 :=
    prob_outer_row_length 0 (by norm_num)
  have len_hi : (add_vec (prob_hallway.getD 1 [])
      (prob_inner_corner.getD 1 [])).length = 18 := by
    rw [add_vec_length, len_h, len_i]
    exact min_self 18
  rw [dot_encoded 1 1 0 (by norm_num) (by norm_num) (by norm_num),
    add_vec_getD _ _ n (by rw [len_hi]; exact hn) (by rw [len_o]; exact hn),
    add_vec_getD _ _ n (by rw [len_h]; exact hn) (by rw [len_i]; exact hn)]

theorem pre110_entry (n : ℕ) (hn : n < 18) :
    (mul_vec (dot_vec_mat (one_hot_vec 2 1 ++ one_hot_vec 3 1 ++ one_hot_vec 3 0)
      measurements_probability) (uniform_distribution 18)).getD n 0
    = ((prob_hallway.getD 1 []).getD n 0 + (prob_inner_corner.getD 1 []).getD n 0
        + (prob_outer_corner.getD 0 []).getD n 0) * (1 / 18) := by
  rw [mul_vec_getD _ _ n (by rw [dot_vec_mat_length]; exact hn)
      (by rw [uniform_length]; exact hn),
    mult110_entry n hn, uniform_getD n hn]

theorem pre110_length :
    (mul_vec (dot_vec_mat (one_hot_vec 2 1 ++ one_hot_vec 3 1 ++ one_hot_vec 3 0)
      measurements_probability) (uniform_distribution 18)).length = 18 := by
  rw [mul_vec_length, dot_vec_mat_length, uniform_length]
  exact min_self 18

theorem pre110_sum_pos :
    0 < (mul_vec (dot_vec_mat (one_hot_vec 2 1 ++ one_hot_vec 3 1 ++ one_hot_vec 3 0)
      measurements_probability) (uniform_distribution 18)).sum := by
  refine List.sum_pos _
    (mul_vec_pos (dot_encoded_pos 1 1 0 (by norm_num) (by norm_num) (by norm_num))
      uniform_pos) ?_
  intro hnil
  have hplen := pre110_length
  rw [hnil] at hplen
  simp at hplen

/-- C2 counterexample: for the one-hot encoding of the valid reading
[1, 1, 0] and the uniform belief, the posterior computed by the code's
single dot product (sum of the selected rows) differs from the
posterior computed by multiplying the three selected rows together
elementwise: nodes 1 and 2 get equal mass under the product rule but
unequal mass under the code's sum rule. -/
theorem claim2_counterexample :
    normalize (mul_vec (dot_vec_mat
        (one_hot_vec 2 1 ++ one_hot_vec 3 1 ++ one_hot_vec 3 0)
        measurements_probability) (uniform_distribution 18))
    ≠ normalize (mul_vec (mul_vec (mul_vec (prob_hallway.getD 1 [])
        (prob_inner_corner.getD 1 [])) (prob_outer_corner.getD 0 []))
        (uniform_distribution 18)) := by
  intro hEq
  have len_h : (prob_hallway.getD 1 []).length = 18 :=
    prob_hallway_row_length 1 (by norm_num)
  have len_i : (prob_inner_corner.getD 1 []).length = 18 :=
    prob_inner_row_length 1 (by norm_num)
  have len_o : (prob_outer_corner.getD 0 []).length = 18 :=
    prob_outer_row_length 0 (by norm_num)
  have hplen := pre110_length
  have hpsum := pre110_sum_pos
  have p_entry := pre110_entry
  -- entries of the product-rule vector q at indices 0 and 1
  have len_hi2 : (mul_vec (prob_hallway.getD 1 []) (prob_inner_corner.getD 1 [])).length = 18 := by
    rw [mul_vec_length, len_h, len_i]
    exact min_self 18
  have len_hio : (mul_vec (mul_vec (prob_hallway.getD 1 []) (prob_inner_corner.getD 1 []))
      (prob_outer_corner.getD 0 [])).length = 18 := by
    rw [mul_vec_length, len_hi2, len_o]
    exact min_self 18
  have hqlen : (mul_vec (mul_vec (mul_vec (prob_hallway.getD 1 [])
      (prob_inner_corner.getD 1 [])) (prob_outer_corner.getD 0 []))
      (uniform_distribution 18)).length = 18 := by
    rw [mul_vec_length, len_hio, uniform_length]
    exact min_self 18
  have q_entry : ∀ n : ℕ, n < 18 →
      (mul_vec (mul_vec (mul_vec (prob_hallway.getD 1 [])
        (prob_inner_corner.getD 1 [])) (prob_outer_corner.getD 0 []))
        (uniform_distribution 18)).getD n 0
      = (prob_hallway.getD 1 []).getD n 0 * (prob_inner_corner.getD 1 []).getD n 0
          * (prob_outer_corner.getD 0 []).getD n 0 * (1 / 18) := by
    intro n hn
    rw [mul_vec_getD _ _ n (by rw [len_hio]; exact hn) (by rw [uniform_length]; exact hn),
      mul_vec_getD _ _ n (by rw [len_hi2]; exact hn) (by rw [len_o]; exact hn),
      mul_vec_getD _ _ n (by rw [len_h]; exact hn) (by rw [len_i]; exact hn),
      uniform_getD n hn]
  -- the two sides of hEq agree entrywise; compare indices 0 and 1
  have L0 := congrArg (fun l => l.getD 0 0) hEq
  have L1 := congrArg (fun l => l.getD 1 0) hEq
  simp only at L0 L1
  rw [normalize_getD _ 0 (by rw [hplen]; norm_num),
    normalize_getD _ 0 (by rw [hqlen]; norm_num),
    p_entry 0 (by norm_num), q_entry 0 (by norm_num)] at L0
  rw [normalize_getD _ 1 (by rw [hplen]; norm_num),
    normalize_getD _ 1 (by rw [hqlen]; norm_num),
    p_entry 1 (by norm_num), q_entry 1 (by norm_num)] at L1
  rw [hallway_row1_entry0, inner_row1_entry0, outer_row0_entry 0 (by norm_num)] at L0
  rw [hallway_row1_entry1, inner_row1_entry1, outer_row0_entry 1 (by norm_num)] at L1
  -- the product-rule entries at 0 and 1 coincide, so the sum-rule ones must too
  have hq01 : ((1 : ℚ) / 58) * (5 / 34) * (1 / 18) * (1 / 18)
      = ((5 : ℚ) / 58) * (1 / 34) * (1 / 18) * (1 / 18) := by norm_num
  have hL01 : ((1 / 58 + 5 / 34 + 1 / 18 : ℚ)) * (1 / 18) /
        (mul_vec (dot_vec_mat (one_hot_vec 2 1 ++ one_hot_vec 3 1 ++ one_hot_vec 3 0)
          measurements_probability) (uniform_distribution 18)).sum
      = ((5 / 58 + 1 / 34 + 1 / 18 : ℚ)) * (1 / 18) /
        (mul_vec (dot_vec_mat (one_hot_vec 2 1 ++ one_hot_vec 3 1 ++ one_hot_vec 3 0)
          measurements_probability) (uniform_distribution 18)).sum := by
    rw [L0, L1, hq01]
  rw [div_eq_div_iff (ne_of_gt hpsum) (ne_of_gt hpsum)] at hL01
  have := mul_right_cancel₀ (ne_of_gt hpsum) hL01
  norm_num at this

/-! ### Entry comparisons inside a likelihood row -/

/-- In a boosted row, an occurrence node strictly outweighs a
non-occurrence node. -/
theorem boosted_row_entry_lt (occ : List ℕ) (k j : ℕ) (hk : k < 18)
    (hj : j < 18) (hkm : k + 1 ∈ occ) (hjm : j + 1 ∉ occ) :
    (set_feature_occurency occ 5).getD j 0 <
      (set_feature_occurency occ 5).getD k 0 := by
  have hW := occurrence_weights_sum_pos occ 5 (by norm_num)
  rw [set_feature_occurency_getD _ _ k hk, set_feature_occurency_getD _ _ j hj,
    if_pos hkm, if_neg hjm]
  exact div_lt_div_of_pos_right (by norm_num) hW

theorem hallway_entry_mono (r0 k j : ℕ) (h0 : r0 < 2) (hk : k < 18)
    (hj : j < 18) (hkm : 0 < r0 → k + 1 ∈ occurrence_hallway)
    (hjm : 0 < r0 → j + 1 ∉ occurrence_hallway) :
    (prob_hallway.getD r0 []).getD j 0 ≤ (prob_hallway.getD r0 []).getD k 0 ∧
    (0 < r0 →
      (prob_hallway.getD r0 []).getD j 0 < (prob_hallway.getD r0 []).getD k 0) := by
  interval_cases r0
  · refine ⟨?_, by omega⟩
    rw [show prob_hallway.getD 0 [] = uniform_distribution 18 from rfl,
      uniform_getD k hk, uniform_getD j hj]
  · have hlt : (prob_hallway.getD 1 []).getD j 0 <
        (prob_hallway.getD 1 []).getD k 0 :=
      boosted_row_entry_lt occurrence_hallway k j hk hj
        (hkm (by norm_num)) (hjm (by norm_num))
    exact ⟨le_of_lt hlt, fun _ => hlt⟩

theorem inner_entry_mono (r1 k j : ℕ) (h1 : r1 < 3) (hk : k < 18)
    (hj : j < 18) (hkm : 0 < r1 → k + 1 ∈ occurrence_inner)
    (hjm : 0 < r1 → j + 1 ∉ occurrence_inner) :
    (prob_inner_corner.getD r1 []).getD j 0 ≤
      (prob_inner_corner.getD r1 []).getD k 0 ∧
    (0 < r1 → (prob_inner_corner.getD r1 []).getD j 0 <
      (prob_inner_corner.getD r1 []).getD k 0) := by
  interval_cases r1
  · refine ⟨?_, by omega⟩
    rw [show prob_inner_corner.getD 0 [] = uniform_distribution 18 from rfl,
      uniform_getD k hk, uniform_getD j hj]
  · have hlt : (prob_inner_corner.getD 1 []).getD j 0 <
        (prob_inner_corner.getD 1 []).getD k 0 :=
      boosted_row_entry_lt occurrence_inner k j hk hj
        (hkm (by norm_num)) (hjm (by norm_num))
    exact ⟨le_of_lt hlt, fun _ => hlt⟩
  · have hlt : (prob_inner_corner.getD 2 []).getD j 0 <
        (prob_inner_corner.getD 2 []).getD k 0 :=
      boosted_row_entry_lt occurrence_inner k j hk hj
        (hkm (by norm_num)) (hjm (by norm_num))
    exact ⟨le_of_lt hlt, fun _ => hlt⟩

theorem outer_entry_mono (r2 k j : ℕ) (h2 : r2 < 3) (hk : k < 18)
    (hj : j < 18) (hkm1 : r2 = 1 → k + 1 ∈ occurrence_outer_single)
    (hjm1 : r2 = 1 → j + 1 ∉ occurrence_outer_single)
    (hkm2 : r2 = 2 → k + 1 ∈ occurrence_outer_multi)
    (hjm2 : r2 = 2 → j + 1 ∉ occurrence_outer_multi) :
    (prob_outer_corner.getD r2 []).getD j 0 ≤
      (prob_outer_corner.getD r2 []).getD k 0 ∧
    (0 < r2 → (prob_outer_corner.getD r2 []).getD j 0 <
      (prob_outer_corner.getD r2 []).getD k 0) := by
  interval_cases r2
  · refine ⟨?_, by omega⟩
    rw [show prob_outer_corner.getD 0 [] = uniform_distribution 18 from rfl,
      uniform_getD k hk, uniform_getD j hj]
  · have hlt : (prob_outer_corner.getD 1 []).getD j 0 <
        (prob_outer_corner.getD 1 []).getD k 0 :=
      boosted_row_entry_lt occurrence_outer_single k j hk hj
        (hkm1 rfl) (hjm1 rfl)
    exact ⟨le_of_lt hlt, fun _ => hlt⟩
  · have hlt : (prob_outer_corner.getD 2 []).getD j 0 <
        (prob_outer_corner.getD 2 []).getD k 0 :=
      boosted_row_entry_lt occurrence_outer_multi k j hk hj
        (hkm2 rfl) (hjm2 rfl)
    exact ⟨le_of_lt hlt, fun _ => hlt⟩

/-- The multiplier entry of a valid encoded reading, as the sum of the
three selected row entries. -/
theorem mult_entry (r0 r1 r2 n : ℕ) (h0 : r0 < 2) (h1 : r1 < 3)
    (h2 : r2 < 3) (hn : n < 18) :
    (dot_vec_mat (one_hot_vec 2 r0 ++ one_hot_vec 3 r1 ++ one_hot_vec 3 r2)
      measurements_probability).getD n 0
    = (prob_hallway.getD r0 []).getD n 0
        + (prob_inner_corner.getD r1 []).getD n 0
        + (prob_outer_corner.getD r2 []).getD n 0 := by
  have len_h := prob_hallway_row_length r0 h0
  have len_i := prob_inner_row_length r1 h1
  have len_o := prob_outer_row_length r2 h2
  have len_hi : (add_vec (prob_hallway.getD r0 [])
      (prob_inner_corner.getD r1 [])).length = 18 := by
    rw [add_vec_length, len_h, len_i]
    exact min_self 18
  rw [dot_encoded r0 r1 r2 h0 h1 h2,
    add_vec_getD _ _ n (by rw [len_hi]; exact hn) (by rw [len_o]; exact hn),
    add_vec_getD _ _ n (by rw [len_h]; exact hn) (by rw [len_i]; exact hn)]

/-- C7 counterexample: the valid reading [1, 1, 0] selects (among
others) the hallway likelihood row, whose occurrence set contains node
2 but not node 1; yet one update from the uniform belief strictly
DECREASES the ratio belief[node 2]/belief[node 1], because node 1 sits
in the occurrence set of the simultaneously selected inner-corner row.
The claimed strict monotone growth of the ratio fails. -/
theorem claim7_counterexample :
    2 ∈ occurrence_hallway ∧ 1 ∉ occurrence_hallway ∧
    ∃ b' : List ℚ,
      update_belief (uniform_distribution 18) [1, 1, 0] = some b' ∧
      b'.getD 1 0 / b'.getD 0 0 <
        (uniform_distribution 18).getD 1 0 /
          (uniform_distribution 18).getD 0 0 := by
  refine ⟨by decide, by decide, ?_⟩
  have hz := process_sensor_reading_valid 1 1 0 (by norm_num) (by norm_num)
    (by norm_num)
  have hupd : update_belief (uniform_distribution 18) [1, 1, 0]
      = some (normalize (mul_vec
          (dot_vec_mat (one_hot_vec 2 1 ++ one_hot_vec 3 1 ++ one_hot_vec 3 0)
            measurements_probability) (uniform_distribution 18))) := by
    rw [update_belief_some _ _ _ hz, set_belief,
      if_pos (by rw [uniform_length, normalize_length, pre110_length])]
  refine ⟨_, hupd, ?_⟩
  have hS := pre110_sum_pos
  rw [normalize_getD _ 1 (by rw [pre110_length]; norm_num),
    normalize_getD _ 0 (by rw [pre110_length]; norm_num),
    pre110_entry 1 (by norm_num), pre110_entry 0 (by norm_num),
    hallway_row1_entry0, hallway_row1_entry1, inner_row1_entry0,
    inner_row1_entry1, outer_row0_entry 0 (by norm_num),
    outer_row0_entry 1 (by norm_num), uniform_getD 0 (by norm_num),
    uniform_getD 1 (by norm_num)]
  have hB : (0 : ℚ) < (1 / 58 + 5 / 34 + 1 / 18) * (1 / 18) := by norm_num
  have e1 : ((5 / 58 + 1 / 34 + 1 / 18 : ℚ) * (1 / 18) /
        (mul_vec (dot_vec_mat (one_hot_vec 2 1 ++ one_hot_vec 3 1 ++ one_hot_vec 3 0)
          measurements_probability) (uniform_distribution 18)).sum) /
      ((1 / 58 + 5 / 34 + 1 / 18 : ℚ) * (1 / 18) /
        (mul_vec (dot_vec_mat (one_hot_vec 2 1 ++ one_hot_vec 3 1 ++ one_hot_vec 3 0)
          measurements_probability) (uniform_distribution 18)).sum)
      = ((5 / 58 + 1 / 34 + 1 / 18 : ℚ) * (1 / 18)) /
        ((1 / 58 + 5 / 34 + 1 / 18 : ℚ) * (1 / 18)) := by
    rw [div_div_div_cancel_right₀ (ne_of_gt hS)]
  rw [e1]
  norm_num

/-- C7 (amended): fix a valid reading and nodes k, j such that k lies
in the occurrence set of every non-uniform likelihood row the reading
selects while j lies in none of them, with at least one selected row
non-uniform.  Then one `update_belief` with that reading multiplies
the ratio belief[k]/belief[j] by the constant factor
multiplier[k]/multiplier[j] > 1, so over repeated identical updates
the ratio strictly increases monotonically, with no oscillation.  (As
stated — k in the occurrence set of *a* selected row, j outside it —
the claim is refuted by the counterexample.) -/
theorem claim7_amended_ratio_increases (b : List ℚ) (r0 r1 r2 k j : ℕ)
    (hb : b.length = 18) (hpos : ∀ x ∈ b, 0 < x)
    (hk : k < 18) (hj : j < 18)
    (h0 : r0 < 2) (h1 : r1 < 3) (h2 : r2 < 3)
    (hsome : 0 < r0 ∨ 0 < r1 ∨ 0 < r2)
    (hk0 : 0 < r0 → k + 1 ∈ occurrence_hallway)
    (hj0 : 0 < r0 → j + 1 ∉ occurrence_hallway)
    (hk1 : 0 < r1 → k + 1 ∈ occurrence_inner)
    (hj1 : 0 < r1 → j + 1 ∉ occurrence_inner)
    (hk2a : r2 = 1 → k + 1 ∈ occurrence_outer_single)
    (hj2a : r2 = 1 → j + 1 ∉ occurrence_outer_single)
    (hk2b : r2 = 2 → k + 1 ∈ occurrence_outer_multi)
    (hj2b : r2 = 2 → j + 1 ∉ occurrence_outer_multi) :
    ∃ b' : List ℚ, update_belief b [r0, r1, r2] = some b' ∧
      b.getD k 0 / b.getD j 0 < b'.getD k 0 / b'.getD j 0 := by
  have hz := process_sensor_reading_valid r0 r1 r2 h0 h1 h2
  have hmlen : (dot_vec_mat
      (one_hot_vec 2 r0 ++ one_hot_vec 3 r1 ++ one_hot_vec 3 r2)
      measurements_probability).length = 18 := dot_vec_mat_length _ _
  have hmpos := dot_encoded_pos r0 r1 r2 h0 h1 h2
  have hplen : (mul_vec (dot_vec_mat
      (one_hot_vec 2 r0 ++ one_hot_vec 3 r1 ++ one_hot_vec 3 r2)
      measurements_probability) b).length = 18 := by
    rw [mul_vec_length, hmlen, hb]
    exact min_self 18
  have hupd : update_belief b [r0, r1, r2]
      = some (normalize (mul_vec
          (dot_vec_mat (one_hot_vec 2 r0 ++ one_hot_vec 3 r1 ++ one_hot_vec 3 r2)
            measurements_probability) b)) := by
    rw [update_belief_some _ _ _ hz, set_belief,
      if_pos (by rw [hb, normalize_length, hplen])]
  refine ⟨_, hupd, ?_⟩
  have hS : 0 < (mul_vec (dot_vec_mat
      (one_hot_vec 2 r0 ++ one_hot_vec 3 r1 ++ one_hot_vec 3 r2)
      measurements_probability) b).sum := by
    refine List.sum_pos _ (mul_vec_pos hmpos hpos) ?_
    intro hnil
    rw [hnil] at hplen
    simp at hplen
  -- the multiplier is strictly larger at k than at j
  have hH := hallway_entry_mono r0 k j h0 hk hj hk0 hj0
  have hI := inner_entry_mono r1 k j h1 hk hj hk1 hj1
  have hO := outer_entry_mono r2 k j h2 hk hj hk2a hj2a hk2b hj2b
  have key : (dot_vec_mat (one_hot_vec 2 r0 ++ one_hot_vec 3 r1 ++ one_hot_vec 3 r2)
        measurements_probability).getD j 0
      < (dot_vec_mat (one_hot_vec 2 r0 ++ one_hot_vec 3 r1 ++ one_hot_vec 3 r2)
        measurements_probability).getD k 0 := by
    rw [mult_entry r0 r1 r2 k h0 h1 h2 hk, mult_entry r0 r1 r2 j h0 h1 h2 hj]
    rcases hsome with hr | hr | hr
    · exact add_lt_add_of_lt_of_le (add_lt_add_of_lt_of_le (hH.2 hr) hI.1) hO.1
    · exact add_lt_add_of_lt_of_le (add_lt_add_of_le_of_lt hH.1 (hI.2 hr)) hO.1
    · exact add_lt_add_of_le_of_lt (add_le_add hH.1 hI.1) (hO.2 hr)
  -- entry-level positivity
  have hbk : 0 < b.getD k 0 := by
    rw [List.getD_eq_getElem b 0 (by rw [hb]; exact hk)]
    exact hpos _ (List.getElem_mem _)
  have hbj : 0 < b.getD j 0 := by
    rw [List.getD_eq_getElem b 0 (by rw [hb]; exact hj)]
    exact hpos _ (List.getElem_mem _)
  have hmj : 0 < (dot_vec_mat (one_hot_vec 2 r0 ++ one_hot_vec 3 r1 ++ one_hot_vec 3 r2)
      measurements_probability).getD j 0 := by
    rw [List.getD_eq_getElem _ 0 (by rw [hmlen]; exact hj)]
    exact hmpos _ (List.getElem_mem _)
  have hmk : 0 < (dot_vec_mat (one_hot_vec 2 r0 ++ one_hot_vec 3 r1 ++ one_hot_vec 3 r2)
      measurements_probability).getD k 0 := by
    rw [List.getD_eq_getElem _ 0 (by rw [hmlen]; exact hk)]
    exact hmpos _ (List.getElem_mem _)
  -- posterior entries
  have ek : (normalize (mul_vec (dot_vec_mat
        (one_hot_vec 2 r0 ++ one_hot_vec 3 r1 ++ one_hot_vec 3 r2)
        measurements_probability) b)).getD k 0
      = (dot_vec_mat (one_hot_vec 2 r0 ++ one_hot_vec 3 r1 ++ one_hot_vec 3 r2)
          measurements_probability).getD k 0 * b.getD k 0 /
        (mul_vec (dot_vec_mat (one_hot_vec 2 r0 ++ one_hot_vec 3 r1 ++ one_hot_vec 3 r2)
          measurements_probability) b).sum := by
    rw [normalize_getD _ k (by rw [hplen]; exact hk),
      mul_vec_getD _ _ k (by rw [hmlen]; exact hk) (by rw [hb]; exact hk)]
  have ej : (normalize (mul_vec (dot_vec_mat
        (one_hot_vec 2 r0 ++ one_hot_vec 3 r1 ++ one_hot_vec 3 r2)
        measurements_probability) b)).getD j 0
      = (dot_vec_mat (one_hot_vec 2 r0 ++ one_hot_vec 3 r1 ++ one_hot_vec 3 r2)
          measurements_probability).getD j 0 * b.getD j 0 /
        (mul_vec (dot_vec_mat (one_hot_vec 2 r0 ++ one_hot_vec 3 r1 ++ one_hot_vec 3 r2)
          measurements_probability) b).sum := by
    rw [normalize_getD _ j (by rw [hplen]; exact hj),
      mul_vec_getD _ _ j (by rw [hmlen]; exact hj) (by rw [hb]; exact hj)]
  rw [ek, ej, div_div_div_cancel_right₀ (ne_of_gt hS),
    div_lt_div_iff₀ hbj (mul_pos hmj hbj)]
  nlinarith [mul_lt_mul_of_pos_left key (mul_pos hbk hbj)]

theorem claim7_amended_ratio_increases_witness :
    ∃ b' : List ℚ, update_belief (uniform_distribution 18) [1, 0, 0] = some b' ∧
      (uniform_distribution 18).getD 1 0 / (uniform_distribution 18).getD 0 0 <
        b'.getD 1 0 / b'.getD 0 0 :=
  claim7_amended_ratio_increases (uniform_distribution 18) 1 0 0 1 0
    uniform_length uniform_pos (by norm_num) (by norm_num) (by norm_num)
    (by norm_num) (by norm_num) (Or.inl (by norm_num))
    (fun _ => by decide) (fun _ => by decide)
    (fun h => absurd h (by norm_num)) (fun h => absurd h (by norm_num))
    (fun h => absurd h (by norm_num)) (fun h => absurd h (by norm_num))
    (fun h => absurd h (by norm_num)) (fun h => absurd h (by norm_num))

end CIC
